import Mathlib

/-!
# Verification of the Martin Lings RAG chatbot policy layer

A shallow embedding of the policy code of the repository
(`src/utils.py`, `src/chatbot.py`, `src/vectorstore.py`, `app.py`):
citation collection and formatting, environment validation, the
question-answering response wrapper, the vectorstore load-or-rebuild
policy, the retrieval configuration, and the chunking configuration.

Pure Python functions become Lean functions; calls into external
services (the LLM chain, FAISS load/build) are modelled as explicit
`Except`-valued inputs so that both the success and the failure paths
of the code are captured.  Pieces of behaviour that live in external
libraries (the Streamlit resource cache, the langchain text splitter,
the maximal-marginal-relevance selection) are modelled from the
specification and marked as such in their doc comments.
-/

namespace MartinLings

/-! ## Embedding of `src/utils.py` -/

/-- Lexicographic comparison of character sequences by code point: the
order Python's `sorted` uses on strings. -/
def lexLeChars : List Char → List Char → Bool
  | [], _ => true
  | _ :: _, [] => false
  | a :: as, b :: bs =>
    if a < b then true
    else if b < a then false
    else lexLeChars as bs

/-- Python's `<=` on strings: lexicographic by code point. -/
def pyStrLe (a b : String) : Bool := lexLeChars a.data b.data

/-- `pyStrLe` as a relation, for use with `List.insertionSort`. -/
def pyLe (a b : String) : Prop := pyStrLe a b = true

instance pyLe.decidableRel : DecidableRel pyLe := fun a b =>
  inferInstanceAs (Decidable (pyStrLe a b = true))

/-- The distinct, display-ordered source list computed inside
`format_sources` (src/utils.py line 51):
`sorted(list(set(str(s) for s in sources if s != "unknown")))`.
Sources are modelled after `str` conversion, so the input is a list of
strings; Python's `sorted` on strings is the lexicographic order on
their code-point sequences, the relation `pyLe`. -/
def uniqueSources (sources : List String) : List String :=
  List.insertionSort pyLe ((sources.filter (fun s => s ≠ "unknown")).dedup)

/-- `format_sources` from src/utils.py lines 37-62: format source page
numbers for display. -/
def formatSources (sources : List String) : String :=
  if sources.isEmpty then
    "**Sources:** No specific pages referenced"
  else if (uniqueSources sources).isEmpty then
    "**Sources:** Page numbers not available"
  else if (uniqueSources sources).length = 1 then
    "**Source:** Page " ++ (uniqueSources sources).headD ""
  else if (uniqueSources sources).length ≤ 5 then
    "**Sources:** Pages " ++ String.intercalate ", " (uniqueSources sources)
  else
    "**Sources:** Pages "
      ++ String.intercalate ", " ((uniqueSources sources).take 5)
      ++ " and " ++ toString ((uniqueSources sources).length - 5) ++ " more"

/-- A process environment, as seen through `os.getenv`: `some v` when the
variable is set to the value `v`, `none` when it is unset. -/
def EnvMap : Type := String → Option String

/-- Python truthiness of `os.getenv(var)` as used by
`validate_environment` (src/utils.py line 77): `None` and the empty
string are both falsy, so an unset variable and a variable set to the
empty string are treated alike. -/
def getenvTruthy (env : EnvMap) (var : String) : Bool :=
  match env var with
  | none => false
  | some v => v != ""

/-- The `required_vars` list of `validate_environment` (src/utils.py
line 73). -/
def requiredVars : List String := ["OPENAI_API_KEY"]

/-- `validate_environment` from src/utils.py lines 65-84: collects the
required variables whose `os.getenv` value is falsy and raises a
`ValueError` naming them when any is missing.  Raising is modelled as
returning `Except.error` with the exact message the code builds. -/
def validateEnvironment (env : EnvMap) : Except String Unit :=
  let missingVars := requiredVars.filter (fun var => ! getenvTruthy env var)
  if missingVars.isEmpty then
    Except.ok ()
  else
    Except.error
      ("Missing required environment variables: "
        ++ String.intercalate ", " missingVars
        ++ ". Please set them in your .env file or Streamlit secrets.")

/-! ## Embedding of `get_response` (src/chatbot.py lines 116-156) -/

/-- A retrieved document as produced by the retrieval chain: its text and
its `page` metadata entry, `none` when the metadata carries no page
attribute (`doc.metadata.get("page") is None`). -/
structure Doc where
  pageContent : String
  page : Option Nat
deriving DecidableEq

/-- The dictionary returned by `qa_chain.invoke`: an optional `answer`
entry and the `context` list of retrieved documents (an absent or empty
`context` entry is modelled as the empty list, which the code treats
identically). -/
structure ChainResult where
  answer : Option String
  context : List Doc
deriving DecidableEq

/-- First-occurrence deduplication, the model of
`list(dict.fromkeys(sources))` (src/chatbot.py line 143): keep each
element's first occurrence, drop the later ones.  `seen` accumulates the
elements already emitted. -/
def dedupFirstAux (seen : List Nat) : List Nat → List Nat
  | [] => []
  | a :: l =>
    if a ∈ seen then dedupFirstAux seen l
    else a :: dedupFirstAux (a :: seen) l

/-- `list(dict.fromkeys(sources))`: deduplicate preserving
first-occurrence order. -/
def dedupFirst (l : List Nat) : List Nat := dedupFirstAux [] l

/-- The whitespace characters removed by Python's `str.strip()`. -/
def isPySpace (c : Char) : Bool :=
  c = ' ' || c = '\t' || c = '\n' || c = '\r' || c = '\x0b' || c = '\x0c'

/-- `question.strip()` on the underlying character list: drop whitespace
from the left, then from the right. -/
def stripList (l : List Char) : List Char :=
  (((l.dropWhile isPySpace).reverse).dropWhile isPySpace).reverse

/-- `question.strip()` (src/chatbot.py line 129). -/
def pyStrip (s : String) : String := List.asString (stripList s.data)

/-- The dictionary returned by `get_response`. -/
structure QAResponse where
  answer : String
  sources : List Nat
  contextDocs : List Doc
deriving DecidableEq

/-- `get_response` from src/chatbot.py lines 116-156.  The chain is an
input function from the (stripped) question to either a `ChainResult` or
a raised exception's message; the `try/except` of the code becomes the
`match` on that outcome, and `get_response` itself always returns a
`QAResponse`, never an error. -/
def getResponse (qaChain : String → Except String ChainResult)
    (question : String) : QAResponse :=
  match qaChain (pyStrip question) with
  | Except.ok result =>
    { answer := result.answer.getD "I couldn't generate a response."
      sources := dedupFirst (result.context.filterMap Doc.page)
      contextDocs := result.context }
  | Except.error e =>
    { answer := "I encountered an error while processing your question: "
        ++ e ++ ". Please try rephrasing your question."
      sources := []
      contextDocs := [] }

/-- The citation line app.py appends below an answer (app.py lines
126-127): `format_sources(result['sources'])`, where `format_sources`
converts each page to its string form. -/
def displayedCitations (sources : List Nat) : String :=
  formatSources (sources.map toString)

/-- The ordered list of distinct page strings that the displayed citation
line presents (the `unique_sources` of `format_sources` applied to the
string forms of the pages). -/
def displayedPageList (sources : List Nat) : List String :=
  uniqueSources (sources.map toString)

/-! ## Embedding of `src/vectorstore.py` -/

/-- The external-world inputs of `load_or_create_vectorstore`
(src/vectorstore.py lines 15-50), for an abstract vectorstore type `VS`:
whether the persisted index directory exists (`os.path.exists`), the
outcome of `FAISS.load_local` on it, and the outcome of
`build_vectorstore` (which re-raises its own failures, so it is
`Except`-valued too). -/
structure VectorstoreEnv (VS : Type) where
  indexExists : Bool
  loadLocal : Except String VS
  buildOutcome : Except String VS

/-- `load_or_create_vectorstore` from src/vectorstore.py lines 15-50:
when the index directory exists, try to load it and return the loaded
store on success; on a load exception, or when the directory is missing,
fall through to `build_vectorstore`. -/
def loadOrCreateVectorstore {VS : Type} (env : VectorstoreEnv VS) :
    Except String VS :=
  if env.indexExists then
    match env.loadLocal with
    | Except.ok vs => Except.ok vs
    | Except.error _ => env.buildOutcome
  else
    env.buildOutcome

/-- `chunk_size` of the `RecursiveCharacterTextSplitter` configured in
`build_vectorstore` (src/vectorstore.py line 76). -/
def chunkSize : Nat := 1000

/-- `chunk_overlap` of the splitter configured in `build_vectorstore`
(src/vectorstore.py line 77). -/
def chunkOverlap : Nat := 200

/-- The `separators` list configured in `build_vectorstore`
(src/vectorstore.py line 78), as character lists:
`["\n\n", "\n", ". ", "! ", "? ", ", ", " ", ""]`. -/
def buildSeparators : List (List Char) :=
  [['\n', '\n'], ['\n'], ['.', ' '], ['!', ' '], ['?', ' '], [',', ' '],
    [' '], []]

/-- Paragraph break, the highest-priority boundary. -/
def paragraphBreakSep : List Char := ['\n', '\n']

/-- Line break boundary. -/
def lineBreakSep : List Char := ['\n']

/-- Sentence-ending punctuation boundaries. -/
def sentenceEndSeps : List (List Char) := [['.', ' '], ['!', ' '], ['?', ' ']]

/-- Clause-ending punctuation boundary. -/
def clauseEndSep : List Char := [',', ' ']

/-- Whitespace boundary. -/
def whitespaceSep : List Char := [' ']

/-- The empty separator: split anywhere (arbitrary character). -/
def anyCharSep : List Char := []

/-- The single-unbreakable-span fallback: split at exactly the maximum
length, producing the consecutive `maxLen`-sized slices of the text. -/
def chunksOfMax (maxLen : Nat) (cs : List Char) : List (List Char) :=
  if maxLen = 0 then (if cs.isEmpty then [] else [cs])
  else
    (List.range ((cs.length + maxLen - 1) / maxLen)).map
      (fun i => (cs.drop (i * maxLen)).take maxLen)

/-- Split a character list on a non-empty separator sequence (helper for
`splitSeq`); the separator occurrences are removed and the fragments
between them returned in order. -/
def splitSeqGo (sep : List Char) (cs : List Char) : List (List Char) :=
  match cs with
  | [] => [[]]
  | c :: rest =>
    if h : ¬ sep.isEmpty ∧ sep.isPrefixOf (c :: rest) then
      [] :: splitSeqGo sep ((c :: rest).drop sep.length)
    else
      match splitSeqGo sep rest with
      | [] => [[c]]
      | p :: ps => (c :: p) :: ps
termination_by cs.length
decreasing_by
  · simp only [List.length_drop, List.length_cons]
    have hsep : ¬ sep.isEmpty := h.1
    have : 0 < sep.length := by
      cases sep with
      | nil => simp [List.isEmpty] at hsep
      | cons x xs => simp
    omega
  · simp

/-- Split on a separator; the empty separator splits the text into its
individual characters. -/
def splitSeq (sep : List Char) (cs : List Char) : List (List Char) :=
  if sep.isEmpty then cs.map (fun c => [c]) else splitSeqGo sep cs

/-- Greedily merge consecutive fragments into chunks whose length stays
within `maxLen`; `acc` is the chunk under construction. -/
def mergePieces (maxLen : Nat) : List (List Char) → List Char → List (List Char)
  | [], acc => if acc.isEmpty then [] else [acc]
  | p :: ps, acc =>
    if (acc ++ p).length ≤ maxLen then mergePieces maxLen ps (acc ++ p)
    else if acc.isEmpty then p :: mergePieces maxLen ps []
    else acc :: mergePieces maxLen ps p

/-- Modelled from the spec: the recursive splitting policy of the
`RecursiveCharacterTextSplitter` configured in `build_vectorstore`; the
splitter's implementation lives in the langchain library, not in this
repository.  Following §4.1 of the specification: a text within the size
budget is kept whole; otherwise it is split on the highest-priority
separator, fragments that fit are kept and merged greedily up to the
budget, fragments that do not fit are split recursively with the
remaining lower-priority separators, and when no acceptable boundary
remains the span is split at exactly the maximum length. -/
def recSplit (maxLen : Nat) : List (List Char) → List Char → List (List Char)
  | [], text => chunksOfMax maxLen text
  | sep :: rest, text =>
    if text.length ≤ maxLen then
      (if text.isEmpty then [] else [text])
    else
      mergePieces maxLen
        ((splitSeq sep text).flatMap (fun piece =>
          if piece.length ≤ maxLen then [piece]
          else recSplit maxLen rest piece)) []

/-! ## Embedding of `create_qa_chain` (src/chatbot.py lines 17-80) -/

/-- The retrieval configuration passed to `vectorstore.as_retriever`. -/
structure RetrieverConfig where
  searchType : String
  k : Nat
  fetchK : Nat
  lambdaMult : ℚ
deriving DecidableEq

/-- The retriever configuration of `create_qa_chain` (src/chatbot.py
lines 29-36): MMR search with `k = 6`, `fetch_k = 12`,
`lambda_mult = 0.7`. -/
def createQaChainRetrieverConfig : RetrieverConfig :=
  { searchType := "mmr", k := 6, fetchK := 12, lambdaMult := 7 / 10 }

/-- Modelled from the spec: the maximal-marginal-relevance score of a
candidate against the already-selected documents (§4.4):
`lambda * relevance(c, query) - (1 - lambda) * max_similarity(c, selected)`,
with the similarity term taken as `0` while nothing is selected. -/
def mmrScore {α : Type} (lam : ℚ) (relevance : α → ℚ) (sim : α → α → ℚ)
    (selected : List α) (c : α) : ℚ :=
  lam * relevance c - (1 - lam) * ((selected.map (fun s => sim c s)).foldr max 0)

/-- The first element of the list attaining the maximal value of `f`
(ties broken in favour of the earlier element, i.e. the better original
relevance rank). -/
def argmaxFirst {α : Type} (f : α → ℚ) : List α → Option α
  | [] => none
  | a :: l =>
    match argmaxFirst f l with
    | none => some a
    | some b => if f a < f b then some b else some a

/-- Modelled from the spec: the iterative MMR selection loop (§4.4) — the
implementation lives in the langchain/FAISS libraries, not in this
repository.  Up to `n` times, pick the remaining candidate with the best
MMR score against the current selection (ties broken by original rank),
move it from the pool to the selection. -/
def mmrGo {α : Type} [DecidableEq α] (lam : ℚ) (relevance : α → ℚ)
    (sim : α → α → ℚ) : Nat → List α → List α → List α
  | 0, _, selected => selected.reverse
  | n + 1, remaining, selected =>
    match argmaxFirst (mmrScore lam relevance sim selected) remaining with
    | none => selected.reverse
    | some c => mmrGo lam relevance sim n (remaining.erase c) (c :: selected)

/-- Modelled from the spec: select `k` documents from the candidate pool
by maximal marginal relevance. -/
def mmrSelect {α : Type} [DecidableEq α] (k : Nat) (lam : ℚ)
    (relevance : α → ℚ) (sim : α → α → ℚ) (pool : List α) : List α :=
  mmrGo lam relevance sim k pool []

/-! ## Embedding of `initialize_chatbot` (src/chatbot.py lines 83-113)
and the startup in `app.py` (lines 29-37) -/

/-- Modelled from the spec: the `st.cache_resource` memoization wrapped
around `initialize_chatbot` and `load_or_create_vectorstore` — framework
behaviour of Streamlit, not code of this repository.  §5: a process-wide
lazily-initialized resource; the first successful call builds and caches
the value, later calls return the cached instance without rebuilding. -/
structure ResourceCache (α : Type) where
  cached : Option α

/-- Modelled from the spec: one call through the resource cache.  Returns
the call's outcome, the updated cache, and whether the underlying builder
was invoked.  A cached value is returned as-is without invoking the
builder; otherwise the builder runs, and its result is cached only on
success (a raising initializer caches nothing). -/
def cachedInit {α : Type} (build : Unit → Except String α)
    (st : ResourceCache α) : Except String α × ResourceCache α × Bool :=
  match st.cached with
  | some v => (Except.ok v, st, false)
  | none =>
    match build () with
    | Except.ok v => (Except.ok v, ⟨some v⟩, true)
    | Except.error e => (Except.error e, ⟨none⟩, true)

/-- The body of `initialize_chatbot` (src/chatbot.py lines 92-113):
validate the environment, load or create the vectorstore, build the QA
chain from it; any failure is re-raised (`raise e`). -/
def initializeChatbotBody {VS Chain : Type} (env : EnvMap)
    (vsEnv : VectorstoreEnv VS) (mkChain : VS → Chain) :
    Except String Chain :=
  match validateEnvironment env with
  | Except.error e => Except.error e
  | Except.ok _ =>
    match loadOrCreateVectorstore vsEnv with
    | Except.error e => Except.error e
    | Except.ok vs => Except.ok (mkChain vs)

/-- The startup block of `app.py` (lines 29-37): call
`initialize_chatbot`; on success the session proceeds with the chain, on
any exception the error is shown and `st.stop()` aborts the session
(modelled as `none`). -/
def appStartup {VS Chain : Type} (env : EnvMap) (vsEnv : VectorstoreEnv VS)
    (mkChain : VS → Chain) : Option Chain :=
  match initializeChatbotBody env vsEnv mkChain with
  | Except.ok chain => some chain
  | Except.error _ => none

/-- An environment in which `OPENAI_API_KEY` is present but set to the
empty string, and nothing else is set. -/
def envWithEmptyKey : EnvMap := fun var =>
  if var = "OPENAI_API_KEY" then some "" else none

/-! ## Helper lemmas -/

theorem string_append_ne_empty (a b : String) (h : a ≠ "") : a ++ b ≠ "" := by
  intro hc
  have hd := congrArg String.data hc
  rw [String.data_append] at hd
  have ha : a.data = [] := (List.append_eq_nil.mp hd).1
  apply h
  cases a
  simp only [String.data] at ha
  subst ha
  rfl

theorem lexLeChars_total : ∀ as bs : List Char,
    lexLeChars as bs = true ∨ lexLeChars bs as = true := by
  intro as
  induction as with
  | nil => intro bs; left; rfl
  | cons a as ih =>
    intro bs
    cases bs with
    | nil => right; rfl
    | cons b bs =>
      by_cases hab : a < b
      · left; simp [lexLeChars, hab]
      · by_cases hba : b < a
        · right; simp [lexLeChars, hba]
        · rcases ih bs with h | h
          · left; simp [lexLeChars, hab, hba, h]
          · right; simp [lexLeChars, hab, hba, h]

theorem lexLeChars_trans : ∀ as bs cs : List Char,
    lexLeChars as bs = true → lexLeChars bs cs = true →
    lexLeChars as cs = true := by
  intro as
  induction as with
  | nil => intro bs cs _ _; rfl
  | cons a as ih =>
    intro bs cs h1 h2
    cases bs with
    | nil => simp [lexLeChars] at h1
    | cons b bs =>
      cases cs with
      | nil => simp [lexLeChars] at h2
      | cons c cs =>
        by_cases hab : a < b
        · by_cases hbc : b < c
          · simp [lexLeChars, lt_trans hab hbc]
          · by_cases hcb : c < b
            · simp [lexLeChars, hbc, hcb] at h2
            · have hbceq : b = c := le_antisymm (not_lt.mp hcb) (not_lt.mp hbc)
              subst hbceq
              simp [lexLeChars, hab]
        · by_cases hba : b < a
          · simp [lexLeChars, hab, hba] at h1
          · have habeq : a = b := le_antisymm (not_lt.mp hba) (not_lt.mp hab)
            subst habeq
            simp only [lexLeChars, if_neg hab, if_neg hba] at h1 ⊢
            by_cases hac : a < c
            · simp [hac]
            · by_cases hca : c < a
              · simp [lexLeChars, hac, hca] at h2
              · simp only [lexLeChars, if_neg hac, if_neg hca] at h2 ⊢
                exact ih bs cs h1 h2

instance pyLe.isTotal : IsTotal String pyLe :=
  ⟨fun a b => lexLeChars_total a.data b.data⟩

instance pyLe.isTrans : IsTrans String pyLe :=
  ⟨fun a b c h1 h2 => lexLeChars_trans a.data b.data c.data h1 h2⟩

theorem uniqueSources_sorted (sources : List String) :
    List.Sorted pyLe (uniqueSources sources) :=
  List.sorted_insertionSort pyLe _

theorem uniqueSources_perm (sources : List String) :
    List.Perm (uniqueSources sources)
      ((sources.filter (fun s => s ≠ "unknown")).dedup) :=
  List.perm_insertionSort pyLe _

theorem uniqueSources_nodup (sources : List String) :
    (uniqueSources sources).Nodup :=
  (uniqueSources_perm sources).nodup_iff.mpr (List.nodup_dedup _)

theorem mem_uniqueSources {sources : List String} {a : String} :
    a ∈ uniqueSources sources ↔ a ∈ sources ∧ a ≠ "unknown" := by
  rw [(uniqueSources_perm sources).mem_iff, List.mem_dedup, List.mem_filter]
  simp

theorem uniqueSources_ne_nil {sources : List String} (hnil : sources ≠ [])
    (hu : "unknown" ∉ sources) : uniqueSources sources ≠ [] := by
  intro h
  cases sources with
  | nil => exact hnil rfl
  | cons s rest =>
    have hmem : s ∈ uniqueSources (s :: rest) :=
      mem_uniqueSources.mpr ⟨List.mem_cons_self s rest,
        fun hs => hu (hs ▸ List.mem_cons_self s rest)⟩
    rw [h] at hmem
    exact List.not_mem_nil s hmem

theorem pairwise_nodup_indexOf_lt {α : Type} [DecidableEq α]
    (R : α → α → Prop) :
    ∀ l : List α, l.Pairwise R → l.Nodup → ∀ a b : α, a ∈ l → b ∈ l →
      ¬ R b a → a ≠ b → l.indexOf a < l.indexOf b := by
  intro l
  induction l with
  | nil => intro _ _ a b ha; exact absurd ha (List.not_mem_nil a)
  | cons x t ih =>
    intro hp hn a b ha hb hba hne
    rcases List.mem_cons.mp ha with rfl | hat
    · rcases List.mem_cons.mp hb with rfl | hbt
      · exact absurd rfl hne
      · rw [List.indexOf_cons_self, List.indexOf_cons_ne _ hne]
        exact Nat.succ_pos _
    · rcases List.mem_cons.mp hb with rfl | hbt
      · exact absurd ((List.pairwise_cons.mp hp).1 a hat) hba
      · have hxa : x ≠ a := fun h => (List.nodup_cons.mp hn).1 (h ▸ hat)
        have hxb : x ≠ b := fun h => (List.nodup_cons.mp hn).1 (h ▸ hbt)
        rw [List.indexOf_cons_ne _ hxa, List.indexOf_cons_ne _ hxb]
        exact Nat.succ_lt_succ
          (ih (List.pairwise_cons.mp hp).2 (List.nodup_cons.mp hn).2
            a b hat hbt hba hne)

theorem mem_dedupFirstAux : ∀ (l seen : List Nat) (x : Nat),
    x ∈ dedupFirstAux seen l ↔ x ∈ l ∧ x ∉ seen := by
  intro l
  induction l with
  | nil => intro seen x; simp [dedupFirstAux]
  | cons a l ih =>
    intro seen x
    by_cases ha : a ∈ seen
    · simp only [dedupFirstAux, if_pos ha]
      rw [ih]
      constructor
      · rintro ⟨hx, hxs⟩
        exact ⟨List.mem_cons_of_mem a hx, hxs⟩
      · rintro ⟨hx, hxs⟩
        rcases List.mem_cons.mp hx with rfl | h
        · exact absurd ha hxs
        · exact ⟨h, hxs⟩
    · simp only [dedupFirstAux, if_neg ha]
      constructor
      · intro hx
        rcases List.mem_cons.mp hx with rfl | h
        · exact ⟨List.mem_cons_self _ _, ha⟩
        · have hml := (ih (a :: seen) x).mp h
          exact ⟨List.mem_cons_of_mem a hml.1,
            fun hs => hml.2 (List.mem_cons_of_mem a hs)⟩
      · rintro ⟨hx, hxs⟩
        rcases List.mem_cons.mp hx with rfl | h
        · exact List.mem_cons_self _ _
        · by_cases hxa : x = a
          · subst hxa; exact List.mem_cons_self _ _
          · refine List.mem_cons_of_mem a ((ih (a :: seen) x).mpr ⟨h, ?_⟩)
            intro hc
            exact (List.mem_cons.mp hc).elim hxa hxs

theorem nodup_dedupFirstAux : ∀ l seen : List Nat,
    (dedupFirstAux seen l).Nodup := by
  intro l
  induction l with
  | nil => intro seen; simp [dedupFirstAux]
  | cons a l ih =>
    intro seen
    by_cases ha : a ∈ seen
    · simp only [dedupFirstAux, if_pos ha]; exact ih seen
    · simp only [dedupFirstAux, if_neg ha]
      refine List.nodup_cons.mpr ⟨?_, ih (a :: seen)⟩
      intro hmem
      exact ((mem_dedupFirstAux l (a :: seen) a).mp hmem).2
        (List.mem_cons_self a seen)

theorem dedupFirstAux_sublist : ∀ l seen : List Nat,
    List.Sublist (dedupFirstAux seen l) l := by
  intro l
  induction l with
  | nil => intro seen; simp [dedupFirstAux]
  | cons a l ih =>
    intro seen
    by_cases ha : a ∈ seen
    · simp only [dedupFirstAux, if_pos ha]
      exact (ih seen).cons a
    · simp only [dedupFirstAux, if_neg ha]
      exact (ih (a :: seen)).cons₂ a

theorem dedupFirstAux_pairwise_indexOf : ∀ l seen : List Nat,
    (dedupFirstAux seen l).Pairwise
      (fun a b => l.indexOf a < l.indexOf b) := by
  intro l
  induction l with
  | nil => intro seen; simp [dedupFirstAux]
  | cons a l ih =>
    intro seen
    by_cases ha : a ∈ seen
    · simp only [dedupFirstAux, if_pos ha]
      refine List.Pairwise.imp_of_mem (fun {x y} hx hy hrel => ?_) (ih seen)
      have hx' := (mem_dedupFirstAux l seen x).mp hx
      have hy' := (mem_dedupFirstAux l seen y).mp hy
      have hxa : a ≠ x := fun h => hx'.2 (h ▸ ha)
      have hya : a ≠ y := fun h => hy'.2 (h ▸ ha)
      rw [List.indexOf_cons_ne _ hxa, List.indexOf_cons_ne _ hya]
      exact Nat.succ_lt_succ hrel
    · simp only [dedupFirstAux, if_neg ha]
      refine List.pairwise_cons.mpr ⟨?_, ?_⟩
      · intro y hy
        have hy' := (mem_dedupFirstAux l (a :: seen) y).mp hy
        have hya : a ≠ y := fun h => hy'.2 (h ▸ List.mem_cons_self a seen)
        rw [List.indexOf_cons_self, List.indexOf_cons_ne _ hya]
        exact Nat.succ_pos _
      · refine List.Pairwise.imp_of_mem (fun {x y} hx hy hrel => ?_)
          (ih (a :: seen))
        have hx' := (mem_dedupFirstAux l (a :: seen) x).mp hx
        have hy' := (mem_dedupFirstAux l (a :: seen) y).mp hy
        have hxa : a ≠ x := fun h => hx'.2 (h ▸ List.mem_cons_self a seen)
        have hya : a ≠ y := fun h => hy'.2 (h ▸ List.mem_cons_self a seen)
        rw [List.indexOf_cons_ne _ hxa, List.indexOf_cons_ne _ hya]
        exact Nat.succ_lt_succ hrel

theorem dedupFirst_nodup (l : List Nat) : (dedupFirst l).Nodup :=
  nodup_dedupFirstAux l []

theorem dedupFirst_sublist (l : List Nat) : List.Sublist (dedupFirst l) l :=
  dedupFirstAux_sublist l []

theorem mem_dedupFirst {l : List Nat} {x : Nat} :
    x ∈ dedupFirst l ↔ x ∈ l := by
  rw [dedupFirst, mem_dedupFirstAux]
  simp

theorem dedupFirst_pairwise_indexOf (l : List Nat) :
    (dedupFirst l).Pairwise (fun a b => l.indexOf a < l.indexOf b) :=
  dedupFirstAux_pairwise_indexOf l []

theorem stripList_pad (padL padR x : List Char)
    (hL : ∀ c ∈ padL, isPySpace c) (hR : ∀ c ∈ padR, isPySpace c) :
    stripList (padL ++ x ++ padR) = stripList x := by
  unfold stripList
  have hLnil : padL.dropWhile isPySpace = [] :=
    List.dropWhile_eq_nil_iff.mpr hL
  have hRrev : padR.reverse.dropWhile isPySpace = [] :=
    List.dropWhile_eq_nil_iff.mpr (fun c hc => hR c (List.mem_reverse.mp hc))
  rw [List.append_assoc, List.dropWhile_append, hLnil]
  simp only [List.isEmpty_nil, if_true]
  rw [List.dropWhile_append]
  by_cases hx : (x.dropWhile isPySpace).isEmpty
  · rw [if_pos hx]
    have hRnil : padR.dropWhile isPySpace = [] :=
      List.dropWhile_eq_nil_iff.mpr hR
    have hx' : x.dropWhile isPySpace = [] := by
      cases h : x.dropWhile isPySpace with
      | nil => rfl
      | cons a l => rw [h] at hx; simp at hx
    rw [hRnil, hx']
  · rw [if_neg hx]
    rw [List.reverse_append, List.dropWhile_append, hRrev]
    simp only [List.isEmpty_nil, if_true]

theorem pyStrip_pad (padL padR q : String)
    (hL : ∀ c ∈ padL.data, isPySpace c) (hR : ∀ c ∈ padR.data, isPySpace c) :
    pyStrip (padL ++ q ++ padR) = pyStrip q := by
  unfold pyStrip
  congr 1
  rw [String.data_append, String.data_append]
  exact stripList_pad padL.data padR.data q.data hL hR

theorem argmaxFirst_mem {α : Type} (f : α → ℚ) :
    ∀ (l : List α) (c : α), argmaxFirst f l = some c → c ∈ l := by
  intro l
  induction l with
  | nil => intro c h; simp [argmaxFirst] at h
  | cons a l ih =>
    intro c h
    cases hl : argmaxFirst f l with
    | none =>
      simp only [argmaxFirst, hl] at h
      exact (Option.some.inj h) ▸ List.mem_cons_self a l
    | some b =>
      simp only [argmaxFirst, hl] at h
      by_cases hf : f a < f b
      · rw [if_pos hf] at h
        exact List.mem_cons_of_mem a ((Option.some.inj h) ▸ ih b hl)
      · rw [if_neg hf] at h
        exact (Option.some.inj h) ▸ List.mem_cons_self a l

theorem mmrGo_length {α : Type} [DecidableEq α] (lam : ℚ) (relevance : α → ℚ)
    (sim : α → α → ℚ) :
    ∀ (n : Nat) (remaining selected : List α),
      (mmrGo lam relevance sim n remaining selected).length
        ≤ n + selected.length := by
  intro n
  induction n with
  | zero => intro rem sel; simp [mmrGo]
  | succ n ih =>
    intro rem sel
    cases h : argmaxFirst (mmrScore lam relevance sim sel) rem with
    | none =>
      simp only [mmrGo, h, List.length_reverse]
      omega
    | some c =>
      simp only [mmrGo, h]
      have := ih (rem.erase c) (c :: sel)
      simp only [List.length_cons] at this
      omega

theorem mmrGo_nodup {α : Type} [DecidableEq α] (lam : ℚ) (relevance : α → ℚ)
    (sim : α → α → ℚ) :
    ∀ (n : Nat) (remaining selected : List α),
      remaining.Nodup → selected.Nodup →
      (∀ x ∈ selected, x ∉ remaining) →
      (mmrGo lam relevance sim n remaining selected).Nodup := by
  intro n
  induction n with
  | zero =>
    intro rem sel _ hsel _
    simpa [mmrGo, List.nodup_reverse] using hsel
  | succ n ih =>
    intro rem sel hrem hsel hdisj
    cases h : argmaxFirst (mmrScore lam relevance sim sel) rem with
    | none =>
      simp only [mmrGo, h]
      simpa [List.nodup_reverse] using hsel
    | some c =>
      simp only [mmrGo, h]
      have hc : c ∈ rem := argmaxFirst_mem _ rem c h
      apply ih
      · exact hrem.erase c
      · exact List.nodup_cons.mpr ⟨fun hcs => hdisj c hcs hc, hsel⟩
      · intro x hx
        rcases List.mem_cons.mp hx with rfl | hxs
        · exact fun hxe => ((List.Nodup.mem_erase_iff hrem).mp hxe).1 rfl
        · exact fun hxe => hdisj x hxs (List.mem_of_mem_erase hxe)

theorem chunksOfMax_length_le (maxLen : Nat) (hpos : 0 < maxLen)
    (cs : List Char) : ∀ c ∈ chunksOfMax maxLen cs, c.length ≤ maxLen := by
  intro c hc
  unfold chunksOfMax at hc
  rw [if_neg (Nat.pos_iff_ne_zero.mp hpos)] at hc
  obtain ⟨i, _, rfl⟩ := List.mem_map.mp hc
  rw [List.length_take]
  exact min_le_left _ _

theorem mergePieces_length_le (maxLen : Nat) :
    ∀ (ps : List (List Char)) (acc : List Char),
      (∀ p ∈ ps, p.length ≤ maxLen) → acc.length ≤ maxLen →
      ∀ c ∈ mergePieces maxLen ps acc, c.length ≤ maxLen := by
  intro ps
  induction ps with
  | nil =>
    intro acc _ hacc c hc
    simp only [mergePieces] at hc
    by_cases h : acc.isEmpty
    · rw [if_pos h] at hc
      exact absurd hc (List.not_mem_nil c)
    · rw [if_neg h] at hc
      obtain rfl := List.mem_singleton.mp hc
      exact hacc
  | cons p ps ih =>
    intro acc hps hacc c hc
    simp only [mergePieces] at hc
    by_cases h1 : (acc ++ p).length ≤ maxLen
    · rw [if_pos h1] at hc
      exact ih (acc ++ p) (fun q hq => hps q (List.mem_cons_of_mem p hq)) h1 c hc
    · rw [if_neg h1] at hc
      by_cases h2 : acc.isEmpty
      · rw [if_pos h2] at hc
        rcases List.mem_cons.mp hc with rfl | hc'
        · exact hps c (List.mem_cons_self c ps)
        · exact ih [] (fun q hq => hps q (List.mem_cons_of_mem p hq))
            (by simp) c hc'
      · rw [if_neg h2] at hc
        rcases List.mem_cons.mp hc with rfl | hc'
        · exact hacc
        · exact ih p (fun q hq => hps q (List.mem_cons_of_mem p hq))
            (hps p (List.mem_cons_self p ps)) c hc'

theorem recSplit_length_le (maxLen : Nat) (hpos : 0 < maxLen) :
    ∀ (seps : List (List Char)) (text : List Char),
      ∀ c ∈ recSplit maxLen seps text, c.length ≤ maxLen := by
  intro seps
  induction seps with
  | nil =>
    intro text c hc
    exact chunksOfMax_length_le maxLen hpos text c hc
  | cons sep rest ih =>
    intro text c hc
    simp only [recSplit] at hc
    by_cases ht : text.length ≤ maxLen
    · rw [if_pos ht] at hc
      by_cases hemp : text.isEmpty
      · rw [if_pos hemp] at hc
        exact absurd hc (List.not_mem_nil c)
      · rw [if_neg hemp] at hc
        obtain rfl := List.mem_singleton.mp hc
        exact ht
    · rw [if_neg ht] at hc
      refine mergePieces_length_le maxLen _ [] ?_ (by simp) c hc
      intro q hq
      obtain ⟨piece, _, hq'⟩ := List.mem_flatMap.mp hq
      by_cases hp : piece.length ≤ maxLen
      · rw [if_pos hp] at hq'
        obtain rfl := List.mem_singleton.mp hq'
        exact hp
      · rw [if_neg hp] at hq'
        exact ih piece q hq'

/-! ## Claim theorems -/

/-- C3: for every question, if the retrieval/LLM invocation raises any
exception, `get_response` returns (its return type is a plain
`QAResponse`, so nothing propagates) a result whose answer is the
non-empty error-describing string built from the exception's message and
whose sources list is empty. -/
theorem getResponse_error_isolated
    (qaChain : String → Except String ChainResult) (question e : String)
    (herr : qaChain (pyStrip question) = Except.error e) :
    (getResponse qaChain question).answer
        = "I encountered an error while processing your question: " ++ e
          ++ ". Please try rephrasing your question."
    ∧ (getResponse qaChain question).answer ≠ ""
    ∧ (getResponse qaChain question).sources = [] := by
  unfold getResponse
  rw [herr]
  refine ⟨rfl, ?_, rfl⟩
  exact string_append_ne_empty
    ("I encountered an error while processing your question: " ++ e)
    ". Please try rephrasing your question."
    (string_append_ne_empty
      "I encountered an error while processing your question: " e (by decide))

/-- Witness for C3: a chain that always fails with a timeout message. -/
theorem getResponse_error_isolated_witness :
    (getResponse (fun _ => Except.error "Request timed out") "q").answer
        = "I encountered an error while processing your question: "
          ++ "Request timed out" ++ ". Please try rephrasing your question."
    ∧ (getResponse (fun _ => Except.error "Request timed out") "q").answer ≠ ""
    ∧ (getResponse (fun _ => Except.error "Request timed out") "q").sources
        = [] :=
  getResponse_error_isolated (fun _ => Except.error "Request timed out")
    "q" "Request timed out" rfl

/-- C6: when the persisted index is missing or loading it raises, the
load-or-create operation returns exactly the outcome of the full rebuild
(`build_vectorstore`), and when loading succeeds it returns the loaded
store; in particular, whenever the rebuild succeeds, either path yields a
usable vectorstore. -/
theorem loadOrCreate_fallback {VS : Type} (env : VectorstoreEnv VS) :
    ((env.indexExists = false ∨ (∃ e, env.loadLocal = Except.error e)) →
      loadOrCreateVectorstore env = env.buildOutcome)
    ∧ (∀ vs : VS, env.indexExists = true → env.loadLocal = Except.ok vs →
        loadOrCreateVectorstore env = Except.ok vs)
    ∧ (∀ vs : VS,
        (env.indexExists = false ∨ (∃ e, env.loadLocal = Except.error e)) →
        env.buildOutcome = Except.ok vs →
        loadOrCreateVectorstore env = Except.ok vs) := by
  refine ⟨?_, ?_, ?_⟩
  · rintro (hne | ⟨e, herr⟩) <;> unfold loadOrCreateVectorstore
    · rw [hne]; simp
    · cases hex : env.indexExists <;> simp [herr]
  · intro vs hex hok
    unfold loadOrCreateVectorstore
    rw [hex, hok]
    simp
  · rintro vs hfail hbuild
    rcases hfail with hne | ⟨e, herr⟩ <;> unfold loadOrCreateVectorstore
    · rw [hne]; simpa using hbuild
    · cases hex : env.indexExists <;> simp [herr, hbuild]

/-- Witness for C6: a store whose persisted index exists but fails to
load, and whose rebuild succeeds. -/
theorem loadOrCreate_fallback_witness :
    loadOrCreateVectorstore
        ({ indexExists := true
           loadLocal := Except.error "corrupt index"
           buildOutcome := Except.ok 7 } : VectorstoreEnv Nat)
      = Except.ok 7 :=
  (loadOrCreate_fallback
      { indexExists := true
        loadLocal := Except.error "corrupt index"
        buildOutcome := Except.ok 7 }).2.2
    7 (Or.inr ⟨"corrupt index", rfl⟩) rfl

/-- C7 counterexample: an environment in which the `OPENAI_API_KEY`
credential is present (set, to the empty string) and yet
`validate_environment` raises, because the code tests Python truthiness
of `os.getenv`, not presence. -/
theorem validateEnvironment_counterexample :
    (envWithEmptyKey "OPENAI_API_KEY").isSome = true
    ∧ validateEnvironment envWithEmptyKey
        = Except.error
            ("Missing required environment variables: OPENAI_API_KEY. "
              ++ "Please set them in your .env file or Streamlit secrets.")
    ∧ validateEnvironment envWithEmptyKey ≠ Except.ok () := by
  refine ⟨rfl, rfl, ?_⟩
  intro h
  exact Except.noConfusion h

/-- C7 (amended): if `os.getenv("OPENAI_API_KEY")` is unset or empty,
`validate_environment` raises an error naming the missing variable and
the app startup aborts (the session does not proceed); if it is set to a
non-empty value, validation raises nothing. -/
theorem validateEnvironment_missing_key {VS Chain : Type} (env : EnvMap)
    (vsEnv : VectorstoreEnv VS) (mkChain : VS → Chain) :
    (getenvTruthy env "OPENAI_API_KEY" = false →
      (∃ pre post : String,
        validateEnvironment env
          = Except.error (pre ++ "OPENAI_API_KEY" ++ post))
      ∧ appStartup env vsEnv mkChain = none)
    ∧ (getenvTruthy env "OPENAI_API_KEY" = true →
      validateEnvironment env = Except.ok ()) := by
  constructor
  · intro hf
    have hmiss : requiredVars.filter (fun var => ! getenvTruthy env var)
        = ["OPENAI_API_KEY"] := by
      simp [requiredVars, hf]
    have herr : validateEnvironment env
        = Except.error
            ("Missing required environment variables: "
              ++ "OPENAI_API_KEY"
              ++ ". Please set them in your .env file or Streamlit secrets.") := by
      unfold validateEnvironment
      rw [hmiss]
      rfl
    refine ⟨⟨"Missing required environment variables: ",
        ". Please set them in your .env file or Streamlit secrets.", herr⟩, ?_⟩
    unfold appStartup initializeChatbotBody
    rw [herr]
  · intro ht
    have hmiss : requiredVars.filter (fun var => ! getenvTruthy env var)
        = [] := by
      simp [requiredVars, ht]
    unfold validateEnvironment
    rw [hmiss]
    rfl

/-- Witness for the amended C7: the empty-string environment takes the
aborting branch. -/
theorem validateEnvironment_missing_key_witness :
    (∃ pre post : String,
      validateEnvironment envWithEmptyKey
        = Except.error (pre ++ "OPENAI_API_KEY" ++ post))
    ∧ appStartup envWithEmptyKey
        ({ indexExists := false
           loadLocal := Except.error "no index"
           buildOutcome := Except.ok 0 } : VectorstoreEnv Nat)
        (fun vs => vs)
      = none :=
  (validateEnvironment_missing_key envWithEmptyKey
      ({ indexExists := false
         loadLocal := Except.error "no index"
         buildOutcome := Except.ok 0 } : VectorstoreEnv Nat)
      (fun vs => vs)).1 rfl

/-- C8: initialization through the resource cache is idempotent — after a
first call that succeeds with value `v` and cache state `st2`, every
later call returns the same `v` and the same state, and does not invoke
the builder again (the `false` component). -/
theorem cachedInit_idempotent {α : Type} (build : Unit → Except String α)
    (st st2 : ResourceCache α) (v : α) (b : Bool)
    (hfirst : cachedInit build st = (Except.ok v, st2, b)) :
    cachedInit build st2 = (Except.ok v, st2, false) := by
  unfold cachedInit at hfirst ⊢
  cases hst : st.cached with
  | some w =>
    rw [hst] at hfirst
    simp only [Prod.mk.injEq, Except.ok.injEq] at hfirst
    obtain ⟨rfl, rfl, -⟩ := hfirst
    simp [hst]
  | none =>
    rw [hst] at hfirst
    cases hb : build () with
    | ok u =>
      rw [hb] at hfirst
      simp only [Prod.mk.injEq, Except.ok.injEq] at hfirst
      obtain ⟨rfl, rfl, -⟩ := hfirst
      rfl
    | error e =>
      rw [hb] at hfirst
      simp only [Prod.mk.injEq] at hfirst
      exact absurd hfirst.1 (fun h => Except.noConfusion h)

/-- Witness for C8: a builder that returns `0`; after the first call
caches it, the second call returns the cached value without building. -/
theorem cachedInit_idempotent_witness :
    cachedInit (fun _ => Except.ok (0 : Nat)) ⟨some 0⟩
      = (Except.ok 0, ⟨some 0⟩, false) :=
  cachedInit_idempotent (fun _ => Except.ok (0 : Nat)) ⟨none⟩ ⟨some 0⟩ 0 true
    rfl

/-- C2: for every list of page-number sources (the sentinel `"unknown"`
not among them), `format_sources` collapses duplicates before counting
and produces exactly one of four shapes: empty input yields the
no-pages-referenced string, one distinct page yields singular `Page N`
phrasing, two to five distinct pages yield a comma-joined list, and more
than five distinct pages yield the first five plus a count of the
remainder. -/
theorem formatSources_four_shapes (sources : List String)
    (hu : "unknown" ∉ sources) :
    (sources = []
      ∧ formatSources sources = "**Sources:** No specific pages referenced")
    ∨ ((uniqueSources sources).length = 1
      ∧ formatSources sources
          = "**Source:** Page " ++ (uniqueSources sources).headD "")
    ∨ (2 ≤ (uniqueSources sources).length
      ∧ (uniqueSources sources).length ≤ 5
      ∧ formatSources sources
          = "**Sources:** Pages "
            ++ String.intercalate ", " (uniqueSources sources))
    ∨ (5 < (uniqueSources sources).length
      ∧ formatSources sources
          = "**Sources:** Pages "
            ++ String.intercalate ", " ((uniqueSources sources).take 5)
            ++ " and " ++ toString ((uniqueSources sources).length - 5)
            ++ " more") := by
  by_cases hnil : sources = []
  · subst hnil
    left
    exact ⟨rfl, rfl⟩
  · have hne := uniqueSources_ne_nil hnil hu
    have hempty : sources.isEmpty = false := by
      cases sources with
      | nil => exact absurd rfl hnil
      | cons a l => rfl
    have husempty : (uniqueSources sources).isEmpty = false := by
      cases h : uniqueSources sources with
      | nil => exact absurd h hne
      | cons a l => rfl
    have hpos : 1 ≤ (uniqueSources sources).length := by
      cases h : uniqueSources sources with
      | nil => exact absurd h hne
      | cons a l => simp
    right
    by_cases h1 : (uniqueSources sources).length = 1
    · left
      refine ⟨h1, ?_⟩
      unfold formatSources
      rw [hempty, husempty]
      simp only [Bool.false_eq_true, if_false]
      rw [if_pos h1]
    · right
      by_cases h5 : (uniqueSources sources).length ≤ 5
      · left
        refine ⟨by omega, h5, ?_⟩
        unfold formatSources
        rw [hempty, husempty]
        simp only [Bool.false_eq_true, if_false]
        rw [if_neg h1, if_pos h5]
      · right
        refine ⟨by omega, ?_⟩
        unfold formatSources
        rw [hempty, husempty]
        simp only [Bool.false_eq_true, if_false]
        rw [if_neg h1, if_neg h5]

/-- Witness for C2 at the seven-page example of the specification: seven
distinct pages land in the first-five-plus-remainder shape. -/
theorem formatSources_four_shapes_witness :
    ((["1", "2", "3", "4", "5", "6", "7"] : List String) = []
      ∧ formatSources ["1", "2", "3", "4", "5", "6", "7"]
          = "**Sources:** No specific pages referenced")
    ∨ ((uniqueSources ["1", "2", "3", "4", "5", "6", "7"]).length = 1
      ∧ formatSources ["1", "2", "3", "4", "5", "6", "7"]
          = "**Source:** Page "
            ++ (uniqueSources ["1", "2", "3", "4", "5", "6", "7"]).headD "")
    ∨ (2 ≤ (uniqueSources ["1", "2", "3", "4", "5", "6", "7"]).length
      ∧ (uniqueSources ["1", "2", "3", "4", "5", "6", "7"]).length ≤ 5
      ∧ formatSources ["1", "2", "3", "4", "5", "6", "7"]
          = "**Sources:** Pages "
            ++ String.intercalate ", "
                (uniqueSources ["1", "2", "3", "4", "5", "6", "7"]))
    ∨ (5 < (uniqueSources ["1", "2", "3", "4", "5", "6", "7"]).length
      ∧ formatSources ["1", "2", "3", "4", "5", "6", "7"]
          = "**Sources:** Pages "
            ++ String.intercalate ", "
                ((uniqueSources ["1", "2", "3", "4", "5", "6", "7"]).take 5)
            ++ " and "
            ++ toString
                ((uniqueSources ["1", "2", "3", "4", "5", "6", "7"]).length - 5)
            ++ " more") :=
  formatSources_four_shapes ["1", "2", "3", "4", "5", "6", "7"] (by decide)

/-- C9: the displayed citation list orders page numbers by lexicographic
comparison of their string forms, not numerically — it is sorted by the
code-point order `pyLe`, and for any input containing pages 10 and 2 the
string `"10"` is listed before `"2"`; concretely, the citation line for
pages 10 and 2 reads `Pages 10, 2`. -/
theorem displayedPageList_lexicographic (sources : List Nat)
    (h10 : 10 ∈ sources) (h2 : 2 ∈ sources) :
    List.Sorted pyLe (displayedPageList sources)
    ∧ (displayedPageList sources).indexOf "10"
        < (displayedPageList sources).indexOf "2"
    ∧ displayedCitations [10, 2] = "**Sources:** Pages 10, 2" := by
  refine ⟨uniqueSources_sorted _, ?_, by decide⟩
  have h10m : "10" ∈ displayedPageList sources :=
    mem_uniqueSources.mpr ⟨List.mem_map_of_mem toString h10, by decide⟩
  have h2m : "2" ∈ displayedPageList sources :=
    mem_uniqueSources.mpr ⟨List.mem_map_of_mem toString h2, by decide⟩
  exact pairwise_nodup_indexOf_lt pyLe _ (uniqueSources_sorted _)
    (uniqueSources_nodup _) "10" "2" h10m h2m (by decide) (by decide)

/-- Witness for C9 at the source list `[10, 2]`. -/
theorem displayedPageList_lexicographic_witness :
    List.Sorted pyLe (displayedPageList [10, 2])
    ∧ (displayedPageList [10, 2]).indexOf "10"
        < (displayedPageList [10, 2]).indexOf "2"
    ∧ displayedCitations [10, 2] = "**Sources:** Pages 10, 2" :=
  displayedPageList_lexicographic [10, 2] (by decide) (by decide)

/-- C1 counterexample: for retrieved chunks carrying pages 2 then 1, the
collected sources are `[2, 1]` (first-occurrence order), but the
displayed citation list presents page `1` before page `2` — sorted
order, not first-occurrence order. -/
theorem displayed_order_counterexample :
    (getResponse
        (fun _ => Except.ok
          { answer := some "a"
            context := [{ pageContent := "x", page := some 2 },
                        { pageContent := "y", page := some 1 }] })
        "q").sources = [2, 1]
    ∧ displayedPageList [2, 1] = ["1", "2"]
    ∧ displayedPageList [2, 1] ≠ ["2", "1"]
    ∧ displayedCitations [2, 1] = "**Sources:** Pages 1, 2" := by
  exact ⟨by decide, by decide, by decide, by decide⟩

/-- C1 (amended): the citation pipeline collects each retrieved chunk's
page attribute (skipping chunks whose page attribute is absent) and
deduplicates while preserving first-occurrence order — the `sources`
field is exactly the first-occurrence dedup of the context pages: it has
no duplicates, is a subsequence of the collected pages, contains exactly
the collected pages, and lists them in order of first occurrence.  The
displayed citation list, however, presents the distinct pages in
lexicographic string order (`pyLe`-sorted), not in first-occurrence
order. -/
theorem getResponse_sources_spec
    (qaChain : String → Except String ChainResult) (question : String)
    (res : ChainResult) (hok : qaChain (pyStrip question) = Except.ok res) :
    (getResponse qaChain question).sources
        = dedupFirst (res.context.filterMap Doc.page)
    ∧ (getResponse qaChain question).sources.Nodup
    ∧ List.Sublist (getResponse qaChain question).sources
        (res.context.filterMap Doc.page)
    ∧ (∀ p, p ∈ (getResponse qaChain question).sources
        ↔ p ∈ res.context.filterMap Doc.page)
    ∧ (getResponse qaChain question).sources.Pairwise
        (fun a b => (res.context.filterMap Doc.page).indexOf a
          < (res.context.filterMap Doc.page).indexOf b)
    ∧ List.Sorted pyLe
        (displayedPageList (getResponse qaChain question).sources) := by
  have hs : (getResponse qaChain question).sources
      = dedupFirst (res.context.filterMap Doc.page) := by
    unfold getResponse
    rw [hok]
  refine ⟨hs, ?_, ?_, ?_, ?_, ?_⟩ <;> rw [hs]
  · exact dedupFirst_nodup _
  · exact dedupFirst_sublist _
  · intro p; exact mem_dedupFirst
  · exact dedupFirst_pairwise_indexOf _
  · exact uniqueSources_sorted _

/-- Witness for the amended C1 at the two-chunk pages-2-then-1 chain. -/
theorem getResponse_sources_spec_witness :
    (getResponse
        (fun _ => Except.ok
          { answer := some "a"
            context := [{ pageContent := "x", page := some 2 },
                        { pageContent := "y", page := some 1 }] })
        "q").sources
      = dedupFirst
          (List.filterMap Doc.page
            [{ pageContent := "x", page := some 2 },
             { pageContent := "y", page := some 1 }]) :=
  (getResponse_sources_spec
    (fun _ => Except.ok
      { answer := some "a"
        context := [{ pageContent := "x", page := some 2 },
                    { pageContent := "y", page := some 1 }] })
    "q"
    { answer := some "a"
      context := [{ pageContent := "x", page := some 2 },
                  { pageContent := "y", page := some 1 }] }
    rfl).1

/-- C10: `get_response` strips leading and trailing whitespace from the
question before invoking the chain, so the response to a padded question
coincides with the response to the unpadded one. -/
theorem getResponse_strip_invariant
    (qaChain : String → Except String ChainResult) (q padL padR : String)
    (hL : ∀ c ∈ padL.data, isPySpace c) (hR : ∀ c ∈ padR.data, isPySpace c) :
    getResponse qaChain (padL ++ q ++ padR) = getResponse qaChain q := by
  unfold getResponse
  rw [pyStrip_pad padL padR q hL hR]

/-- Witness for C10: padding `"hi"` with a space and a newline does not
change the response. -/
theorem getResponse_strip_invariant_witness :
    getResponse (fun _ => Except.error "E") (" " ++ "hi" ++ "\n")
      = getResponse (fun _ => Except.error "E") "hi" :=
  getResponse_strip_invariant (fun _ => Except.error "E") "hi" " " "\n"
    (by decide) (by decide)

/-- C4: the retriever is configured with maximal-marginal-relevance
search, result count `k = 6`, candidate pool `fetch_k = 12` and diversity
weight `lambda_mult = 0.7`; and for every query (any candidate pool with
any relevance and similarity scores) the MMR-selected result has length
at most 6 and, for a duplicate-free candidate pool, contains no duplicate
chunks. -/
theorem retriever_mmr_config_and_result {α : Type} [DecidableEq α]
    (pool : List α) (relevance : α → ℚ) (sim : α → α → ℚ) :
    createQaChainRetrieverConfig.searchType = "mmr"
    ∧ createQaChainRetrieverConfig.k = 6
    ∧ createQaChainRetrieverConfig.fetchK = 12
    ∧ createQaChainRetrieverConfig.lambdaMult = 7 / 10
    ∧ (mmrSelect createQaChainRetrieverConfig.k
        createQaChainRetrieverConfig.lambdaMult relevance sim pool).length ≤ 6
    ∧ (pool.Nodup →
        (mmrSelect createQaChainRetrieverConfig.k
          createQaChainRetrieverConfig.lambdaMult relevance sim
          pool).Nodup) := by
  refine ⟨rfl, rfl, rfl, rfl, ?_, ?_⟩
  · have h := mmrGo_length (7 / 10 : ℚ) relevance sim 6 pool []
    simpa [mmrSelect, createQaChainRetrieverConfig] using h
  · intro hnd
    exact mmrGo_nodup _ _ _ 6 pool [] hnd List.nodup_nil (by simp)

/-- Witness for C4: a three-element pool with identity relevance and zero
similarity yields a duplicate-free selection. -/
theorem retriever_mmr_config_and_result_witness :
    (mmrSelect createQaChainRetrieverConfig.k
      createQaChainRetrieverConfig.lambdaMult (fun n => ((n : Nat) : ℚ))
      (fun _ _ => 0) [0, 1, 2]).Nodup :=
  (retriever_mmr_config_and_result [0, 1, 2] (fun n => ((n : Nat) : ℚ))
    (fun _ _ => 0)).2.2.2.2.2 (by decide)

/-- C5: chunking is configured with maximum size 1000 and overlap 200,
the configured separator list realizes the priority order paragraph
break, line break, sentence-ending punctuation, clause-ending
punctuation, whitespace, arbitrary character, and for every text no
produced chunk exceeds the maximum length (the arbitrary-character
separator and the split-at-maximum fallback make every span
breakable). -/
theorem chunking_config_and_bound (text : List Char) :
    chunkSize = 1000
    ∧ chunkOverlap = 200
    ∧ buildSeparators
        = [paragraphBreakSep, lineBreakSep] ++ sentenceEndSeps
          ++ [clauseEndSep, whitespaceSep, anyCharSep]
    ∧ ∀ c ∈ recSplit chunkSize buildSeparators text, c.length ≤ chunkSize := by
  refine ⟨rfl, rfl, rfl, ?_⟩
  exact recSplit_length_le chunkSize (by decide) buildSeparators text

/-- Witness for C5: the two-character text is returned as a single chunk
within the budget. -/
theorem chunking_config_and_bound_witness :
    (['h', 'i'] : List Char).length ≤ chunkSize :=
  (chunking_config_and_bound ['h', 'i']).2.2.2 ['h', 'i'] (by decide)

end MartinLings
